import Mathlib

/-!
Verification of the Crystal Client launcher's provisioning pipeline.

This file is a shallow embedding of the parts of
`src/app/assets/js/assetguard.js` and `src/app/assets/js/processbuilder.js`
that the verified properties are about: library platform-rule evaluation,
local hash validation and the asset/library validation passes, the download
orchestrator's control flow, Java candidate ordering, JVM binary
validation, and the executable-path helpers.

External collaborators are modelled as explicit parameters:
* the file system is a map `String → Option String` from path strings to
  file contents (`none` means the file does not exist);
* the crypto module's hashing is an abstract parameter
  `calcHash : String → String → String` (algorithm, contents ↦ hex digest),
  mirroring `AssetGuard._calculateHash`'s delegation to the crypto library;
* the network is an oracle `fetch : Asset → Option (Nat × String)` returning
  the content length and body of a successful (HTTP 2xx) response, or `none`
  for a network error / non-success status (axios rejects on non-2xx);
* `process.platform` and `process.arch` are string parameters.

JavaScript numbers in the size/progress bookkeeping are modelled as `Int`
(they stay far below 2^53 here, so integer arithmetic is exact).
-/

namespace Crystal

/-- Node's `path.join` for two segments, with the platform separator.
Node additionally normalizes the joined string, but normalization never
rewrites the trailing literal segments appended by the code in this file,
so plain joining is faithful for the path and path-suffix properties
proved below. -/
def pathJoin (sep a b : String) : String := a ++ sep ++ b

/-- JS `String.prototype.endsWith`, on the character sequence. -/
def jsEndsWith (s suffix : String) : Bool := suffix.data.isSuffixOf s.data

/-- JS `s.indexOf(pat) > -1` (and `s.lastIndexOf(pat) > -1`):
substring containment, decided by scanning every tail. -/
def jsContains (s pat : String) : Bool :=
  s.data.tails.any fun t => pat.data.isPrefixOf t

/-- JS `String.prototype.toLowerCase`, as the character-wise ASCII case
map (the strings it is applied to here are hex digests). -/
def jsToLower (s : String) : String := ⟨s.data.map Char.toLower⟩

/-- One step of JS `String.prototype.split` on a one-character
separator (every `split` in the embedded code uses one). -/
def splitOnChar (c : Char) : List Char → List (List Char)
  | [] => [[]]
  | x :: rest =>
    let r := splitOnChar c rest
    if x = c then [] :: r
    else
      match r with
      | [] => [[x]]
      | h :: t => (x :: h) :: t

/-- JS `s.split(sep)` for a one-character separator. -/
def jsSplit (s : String) (sep : Char) : List String :=
  (splitOnChar sep s.data).map fun l => ⟨l⟩

/-- The ECMAScript `StrWhiteSpaceChar` set (`WhiteSpace` and
`LineTerminator`): what `String.prototype.trim`, `ToNumber` and
`parseInt` treat as white space. -/
def jsWhitespaceChar (c : Char) : Bool :=
  c = ' ' || c = '\t' || c = '\n' || c = '\r' || c = '\x0b' ||
  c = '\x0c' || c = '\u00A0' || c = '\uFEFF' || c = '\u1680' ||
  ('\u2000' ≤ c && c ≤ '\u200A') || c = '\u2028' || c = '\u2029' ||
  c = '\u202F' || c = '\u205F' || c = '\u3000'

/-- JS `String.prototype.trim`. -/
def jsTrim (s : String) : String :=
  ⟨((s.data.dropWhile jsWhitespaceChar).reverse.dropWhile
      jsWhitespaceChar).reverse⟩

/-- A hexadecimal digit (`0-9a-fA-F`). -/
def jsIsHexDigit (c : Char) : Bool :=
  c.isDigit || ('a' ≤ c && c ≤ 'f') || ('A' ≤ c && c ≤ 'F')

/-- An octal digit. -/
def jsIsOctDigit (c : Char) : Bool := '0' ≤ c && c ≤ '7'

/-- A binary digit. -/
def jsIsBinDigit (c : Char) : Bool := c = '0' || c = '1'

/-- The numeric value of one digit in any base up to 16. -/
def jsDigitVal (c : Char) : Nat :=
  if c.isDigit then c.toNat - 48
  else if 'a' ≤ c && c ≤ 'f' then c.toNat - 87
  else c.toNat - 55

/-- The numeric value of a digit run in the given base. -/
def baseVal (base : Nat) (l : List Char) : Nat :=
  l.foldl (fun acc c => acc * base + jsDigitVal c) 0

/-- The numeric value of a decimal digit run. -/
def digitsVal (l : List Char) : Nat := baseVal 10 l

/-- JS `parseInt(s)` with no radix argument: skip leading white space,
read an optional sign, then either a `0x`/`0X` prefix followed by a run
of hexadecimal digits or a run of decimal digits; everything after the
run is ignored. `none` stands for `NaN` (no digits). -/
def jsParseInt (s : String) : Option Int :=
  let t := s.data.dropWhile jsWhitespaceChar
  let sgn : Int := match t with
    | '-' :: _ => -1
    | _ => 1
  let t2 := match t with
    | '+' :: r => r
    | '-' :: r => r
    | r => r
  match t2 with
  | '0' :: x :: r =>
    if x = 'x' || x = 'X' then
      let h := r.takeWhile jsIsHexDigit
      if h.isEmpty then none else some (sgn * (baseVal 16 h : Int))
    else
      let d := t2.takeWhile Char.isDigit
      if d.isEmpty then none else some (sgn * (digitsVal d : Int))
  | _ =>
    let d := t2.takeWhile Char.isDigit
    if d.isEmpty then none else some (sgn * (digitsVal d : Int))

/-- `ToNumber(s) == 1` for a dot-free string (it is only applied to a
component of a `split('.')`, which cannot contain `.`): trim the ECMA
white space; an empty remainder is 0; `0x`/`0o`/`0b` radix-prefixed
literals (signless, as in `ToNumber`) compare their exact integer value;
otherwise an optional sign, a decimal digit run and an optional exponent
part — anything else is `NaN`, and a `-` sign can never yield 1. A
literal `m·10^(-k)` equals the double `1.0` exactly when its exact
rational value lies in the rounding interval
`[1 - 2^(-54), 1 + 2^(-53)]` (both halfway endpoints round to the even
significand of 1), which the comparison decides in exact integer
arithmetic, matching a correctly-rounding engine. -/
def jsDecimalEqOne (l : List Char) : Bool :=
  let ds := l.takeWhile Char.isDigit
  let rest := l.drop ds.length
  if ds.isEmpty then false
  else
    let m := digitsVal ds
    match rest with
    | [] => m == 1
    | e :: er =>
      if e = 'e' || e = 'E' then
        let eneg : Bool := match er with
          | '-' :: _ => true
          | _ => false
        let er2 := match er with
          | '+' :: r => r
          | '-' :: r => r
          | r => r
        if er2.isEmpty || !(er2.all Char.isDigit) then false
        else
          let k := digitsVal er2
          if m = 0 then false
          else if eneg then
            decide ((2 ^ 54 - 1) * 10 ^ k ≤ m * 2 ^ 54) &&
              decide (m * 2 ^ 54 ≤ (2 ^ 54 + 2) * 10 ^ k)
          else decide (m = 1) && decide (k = 0)
      else false

/-- The JS loose comparison `s == 1` for a dot-free string `s` (see
`jsDecimalEqOne` for the numeric model). -/
def jsLooseEqOne (s : String) : Bool :=
  let t := ((s.data.dropWhile jsWhitespaceChar).reverse.dropWhile
    jsWhitespaceChar).reverse
  match t with
  | [] => false
  | '0' :: x :: r =>
    if x = 'x' || x = 'X' then
      decide (¬ r.isEmpty = true) && r.all jsIsHexDigit && baseVal 16 r == 1
    else if x = 'o' || x = 'O' then
      decide (¬ r.isEmpty = true) && r.all jsIsOctDigit && baseVal 8 r == 1
    else if x = 'b' || x = 'B' then
      decide (¬ r.isEmpty = true) && r.all jsIsBinDigit && baseVal 2 r == 1
    else jsDecimalEqOne t
  | '+' :: r => jsDecimalEqOne r
  | '-' :: _ => false
  | _ => jsDecimalEqOne t

/-! ## Library rule evaluation (assetguard.js, class Library) -/

/-- `Library.mojangFriendlyOS`, with `process.platform` as a parameter. -/
def mojangFriendlyOS (platform : String) : String :=
  if platform = "darwin" then "osx"
  else if platform = "win32" then "windows"
  else if platform = "linux" then "linux"
  else "unknown_os"

/-- The `os` object of a Mojang library rule; its `name` may be absent. -/
structure OsSpec where
  name : Option String
deriving Repr, DecidableEq

/-- A Mojang library rule: `action` and `os` may each be absent. -/
structure LibRule where
  action : Option String
  os : Option OsSpec
deriving Repr, DecidableEq

/-- The `for(let rule of rules)` loop body of `Library.validateRules`:
a rule is consulted only when both `action` and `os` are present; an
`allow` rule returns whether the rule's OS name equals the current OS,
a `disallow` rule returns whether it differs, any other action falls
through to the next rule; the loop's fall-through result is `true`. -/
def validateRulesGo (osMoj : String) : List LibRule → Bool
  | [] => true
  | r :: rest =>
    match r.action, r.os with
    | some act, some osSpec =>
      if act = "allow" then osSpec.name == some osMoj
      else if act = "disallow" then osSpec.name != some osMoj
      else validateRulesGo osMoj rest
    | _, _ => validateRulesGo osMoj rest

/-- `Library.validateRules(rules, natives)`. The `natives` object is an
association list from OS name to classifier id; `natives[os] != null` is
lookup success. -/
def validateRules (platform : String) (rules : Option (List LibRule))
    (natives : Option (List (String × String))) : Bool :=
  match rules with
  | none =>
    match natives with
    | none => true
    | some nat => (nat.lookup (mojangFriendlyOS platform)).isSome
  | some rs => validateRulesGo (mojangFriendlyOS platform) rs

/-- Modelled from the spec's words, for refinement comparison with
`validateRules`: the first rule carrying an `allow`/`disallow` action and
an OS constraint. -/
def firstDecidingRule (rules : List LibRule) : Option LibRule :=
  rules.find? fun r =>
    (r.action == some "allow" || r.action == some "disallow") && r.os.isSome

/-- Modelled from the spec's words, for refinement comparison with
`validateRules`: the first matching `allow`/`disallow` rule decides, and
the default is allow (`true`) when no rule matches. -/
def specRuleDecision (osMoj : String) (rules : List LibRule) : Bool :=
  match firstDecidingRule rules with
  | none => true
  | some r =>
    match r.action, r.os with
    | some act, some osSpec =>
      if act = "allow" then osSpec.name == some osMoj
      else osSpec.name != some osMoj
    | _, _ => true

theorem validateRulesGo_eq_specRuleDecision (osMoj : String) (rs : List LibRule) :
    validateRulesGo osMoj rs = specRuleDecision osMoj rs := by
  induction rs with
  | nil => rfl
  | cons r rest ih =>
    unfold validateRulesGo specRuleDecision firstDecidingRule
    rcases hact : r.action with _ | act <;> rcases hos : r.os with _ | osSpec <;>
      simp [List.find?, hact, hos]
    · exact ih
    · exact ih
    · exact ih
    · by_cases hallow : act = "allow"
      · simp [hallow, hact, hos]
      · by_cases hdis : act = "disallow"
        · simp [hallow, hdis, hact, hos]
        · have hb1 : (act == "allow") = false := by simp [hallow]
          have hb2 : (act == "disallow") = false := by simp [hdis]
          simp [hallow, hdis, hb1, hb2]
          exact ih

/-- C1. `Library.validateRules` is the three-valued rule evaluation:
with no rules and no natives it returns `true`; with no rules and a
natives map it returns whether the map has an entry for the current OS;
with rules present, the first matching `allow`/`disallow` rule decides
and the default is allow (`true`) when no rule matches. -/
theorem c1_validateRules_three_valued :
    (∀ platform, validateRules platform none none = true) ∧
    (∀ platform nat, validateRules platform none (some nat) =
      (nat.lookup (mojangFriendlyOS platform)).isSome) ∧
    (∀ platform rs nat, validateRules platform (some rs) nat =
      specRuleDecision (mojangFriendlyOS platform) rs) := by
  refine ⟨fun _ => rfl, fun _ _ => rfl, fun platform rs nat => ?_⟩
  simpa [validateRules] using
    validateRulesGo_eq_specRuleDecision (mojangFriendlyOS platform) rs

/-! ## Artifact model and local validation (assetguard.js) -/

/-- The `Asset` value record (`class Asset`). The `hash` is nullable.
JS objects built by the `Asset` constructor carry no `type` property
(reading it yields `undefined`); `startAsyncProcess` reads `asset.type`,
so it is kept here as an always-absent optional field. -/
structure Asset where
  id : String
  hash : Option String
  size : Nat
  url : String
  /-- The JS field is named `to` (a reserved token in Lean). -/
  dest : String
  type : Option String := none
deriving Repr, DecidableEq

/-- `DLTracker`: the per-category download queue and its aggregate size.
The optional per-item completion callback is not carried here: it is
`null` for every category the verified claims are about. -/
structure DLTracker where
  dlqueue : List Asset
  dlsize : Nat
deriving Repr, DecidableEq

/-- `AssetGuard._validateLocal(filePath, algo, hash)`: the file must
exist; with a `null` hash the local copy is trusted; otherwise the
computed digest must equal the lowercased expected hash. -/
def validateLocal (fsys : String → Option String)
    (calcHash : String → String → String)
    (filePath algo : String) (hash : Option String) : Bool :=
  match fsys filePath with
  | some buf =>
    match hash with
    | none => true
    | some h => calcHash algo buf == jsToLower h
  | none => false

/-! ## Asset validation pass (AssetGuard._assetChainValidateAssets) -/

/-- One entry of the asset index's `objects` map. -/
structure AssetIndexEntry where
  hash : String
  size : Nat
deriving Repr, DecidableEq

/-- The `Asset` built for one asset-index entry: destination is the
two-level hash-prefixed object path, source is the global resource host
plus the same relative path. -/
def assetFromIndexEntry (sep commonPath key : String) (e : AssetIndexEntry) :
    Asset :=
  let assetName := pathJoin sep (e.hash.take 2) e.hash
  let urlName := e.hash.take 2 ++ "/" ++ e.hash
  { id := key
    hash := some e.hash
    size := e.size
    url := "https://resources.download.minecraft.net/" ++ urlName
    dest := pathJoin sep (pathJoin sep (pathJoin sep commonPath "assets") "objects")
            assetName }

/-- The fold body of `_assetChainValidateAssets`: an entry failing local
validation is appended to the queue and its size added. (The source
iterates with `async.forEachOfLimit`, but each iteratee body is
synchronous before its callback, so entries are processed in order.) -/
def assetValidateStep (fsys : String → Option String)
    (calcHash : String → String → String) (sep commonPath : String)
    (acc : List Asset × Nat) (kv : String × AssetIndexEntry) :
    List Asset × Nat :=
  let ast := assetFromIndexEntry sep commonPath kv.1 kv.2
  if ! validateLocal fsys calcHash ast.dest "sha1" ast.hash then
    (acc.1 ++ [ast], acc.2 + ast.size)
  else acc

/-- `AssetGuard._assetChainValidateAssets` (the pass behind
`validateAssets`): the resulting `assets` tracker. The previous tracker
is discarded (`self.assets = new DLTracker(...)`), so the pass is a
constant function of the prior tracker state. -/
def assetChainValidateAssets (fsys : String → Option String)
    (calcHash : String → String → String) (sep commonPath : String)
    (objects : List (String × AssetIndexEntry)) : DLTracker :=
  let r := objects.foldl (assetValidateStep fsys calcHash sep commonPath) ([], 0)
  ⟨r.1, r.2⟩

/-! ## Library validation pass (AssetGuard.validateLibraries) -/

/-- One artifact descriptor of a library's `downloads` object. -/
structure DownloadArtifact where
  sha1 : Option String
  size : Nat
  url : String
  path : String
deriving Repr, DecidableEq

/-- One library descriptor of the version data. `downloads.artifact` may
be absent for native-only libraries; `downloads.classifiers` is keyed by
classifier id. -/
structure LibDescriptor where
  name : String
  rules : Option (List LibRule)
  natives : Option (List (String × String))
  artifact : Option DownloadArtifact
  classifiers : List (String × DownloadArtifact)
deriving Repr, DecidableEq

/-- The artifact selection in `validateLibraries`: the plain artifact for
a non-native library, otherwise the classifier matching the current OS
with the `${arch}` token substituted by `process.arch` minus its `x`.
A failed lookup is `none` (the source would fail there dereferencing an
undefined classifier; such descriptors do not occur in the version data,
and the claims below do not concern them). -/
def resolveLibArtifact (platform arch : String) (lib : LibDescriptor) :
    Option DownloadArtifact :=
  match lib.natives with
  | none => lib.artifact
  | some nat =>
    match nat.lookup (mojangFriendlyOS platform) with
    | none => none
    | some cls =>
      lib.classifiers.lookup (cls.replace "${arch}" (arch.replace "x" ""))

/-- The `Library` item built by `validateLibraries` for a resolved
artifact (a `Library` is an `Asset` whose id is the library name). -/
def libraryItemOf (sep commonPath : String) (lib : LibDescriptor)
    (art : DownloadArtifact) : Asset :=
  { id := lib.name
    hash := art.sha1
    size := art.size
    url := art.url
    dest := pathJoin sep (pathJoin sep commonPath "libraries") art.path }

/-- The fold body of `validateLibraries`: rule-approved libraries whose
resolved artifact fails local validation are enqueued. -/
def libValidateStep (fsys : String → Option String)
    (calcHash : String → String → String)
    (platform arch sep commonPath : String)
    (acc : List Asset × Nat) (lib : LibDescriptor) : List Asset × Nat :=
  if validateRules platform lib.rules lib.natives then
    match resolveLibArtifact platform arch lib with
    | some art =>
      let itm := libraryItemOf sep commonPath lib art
      if ! validateLocal fsys calcHash itm.dest "sha1" itm.hash then
        (acc.1 ++ [itm], acc.2 + itm.size)
      else acc
    | none => acc
  else acc

/-- `AssetGuard.validateLibraries`: the resulting `libraries` tracker.
As with the asset pass, the previous tracker is discarded. -/
def validateLibrariesRun (fsys : String → Option String)
    (calcHash : String → String → String)
    (platform arch sep commonPath : String)
    (libs : List LibDescriptor) : DLTracker :=
  let r := libs.foldl (libValidateStep fsys calcHash platform arch sep commonPath)
    ([], 0)
  ⟨r.1, r.2⟩

/-- An asset that passes local validation is never added by any sequence
of asset fold steps. -/
theorem notMem_foldl_assetValidateStep (fsys : String → Option String)
    (calcHash : String → String → String) (sep commonPath : String)
    (ast : Asset)
    (hvalid : validateLocal fsys calcHash ast.dest "sha1" ast.hash = true)
    (objects : List (String × AssetIndexEntry)) (acc : List Asset × Nat)
    (hacc : ast ∉ acc.1) :
    ast ∉ (objects.foldl (assetValidateStep fsys calcHash sep commonPath) acc).1 := by
  induction objects generalizing acc with
  | nil => exact hacc
  | cons kv rest ih =>
    refine ih _ ?_
    unfold assetValidateStep
    set a2 := assetFromIndexEntry sep commonPath kv.1 kv.2 with ha2
    by_cases h : validateLocal fsys calcHash a2.dest "sha1" a2.hash = true
    · simp [h, hacc]
    · simp only [Bool.not_eq_true] at h
      simp only [h, Bool.not_false, if_pos]
      intro hmem
      rcases List.mem_append.mp hmem with hl | hr
      · exact hacc hl
      · have : ast = a2 := by simpa using hr
        rw [this] at hvalid
        rw [hvalid] at h
        exact Bool.true_eq_false.mp h

/-- A library item that passes local validation is never added by any
sequence of library fold steps. -/
theorem notMem_foldl_libValidateStep (fsys : String → Option String)
    (calcHash : String → String → String)
    (platform arch sep commonPath : String) (itm : Asset)
    (hvalid : validateLocal fsys calcHash itm.dest "sha1" itm.hash = true)
    (libs : List LibDescriptor) (acc : List Asset × Nat)
    (hacc : itm ∉ acc.1) :
    itm ∉ (libs.foldl (libValidateStep fsys calcHash platform arch sep commonPath) acc).1 := by
  induction libs generalizing acc with
  | nil => exact hacc
  | cons lib rest ih =>
    refine ih _ ?_
    unfold libValidateStep
    by_cases hrules : validateRules platform lib.rules lib.natives = true
    · simp only [hrules, if_pos]
      rcases hres : resolveLibArtifact platform arch lib with _ | art
      · exact hacc
      · set itm2 := libraryItemOf sep commonPath lib art with hitm2
        by_cases h : validateLocal fsys calcHash itm2.dest "sha1" itm2.hash = true
        · simp [h, hacc]
        · simp only [Bool.not_eq_true] at h
          simp only [h, Bool.not_false, if_pos]
          intro hmem
          rcases List.mem_append.mp hmem with hl | hr
          · exact hacc hl
          · have : itm = itm2 := by simpa using hr
            rw [this] at hvalid
            rw [hvalid] at h
            exact Bool.true_eq_false.mp h
    · simp only [Bool.not_eq_true] at hrules
      simp [hrules, hacc]

/-- C2. An artifact whose destination file exists with matching hash is
never enqueued by the validation passes, and this holds across repeated
passes: each pass replaces the tracker with a value computed only from
the (unmodified) file store, so iterating `validateAssets` or
`validateLibraries` any positive number of times from any starting
tracker yields a queue without the artifact. -/
theorem c2_valid_artifact_never_enqueued (fsys : String → Option String)
    (calcHash : String → String → String) (sep commonPath : String) :
    (∀ (key : String) (e : AssetIndexEntry) (buf : String)
       (objects : List (String × AssetIndexEntry)),
       fsys (assetFromIndexEntry sep commonPath key e).dest = some buf →
       calcHash "sha1" buf = jsToLower e.hash →
       ∀ (k : Nat) (t0 : DLTracker),
         assetFromIndexEntry sep commonPath key e ∉
           ((fun _ => assetChainValidateAssets fsys calcHash sep commonPath
               objects)^[k + 1] t0).dlqueue) ∧
    (∀ (platform arch : String) (lib : LibDescriptor) (art : DownloadArtifact)
       (buf h : String) (libs : List LibDescriptor),
       fsys (libraryItemOf sep commonPath lib art).dest = some buf →
       art.sha1 = some h →
       calcHash "sha1" buf = jsToLower h →
       ∀ (k : Nat) (t0 : DLTracker),
         libraryItemOf sep commonPath lib art ∉
           ((fun _ => validateLibrariesRun fsys calcHash platform arch sep
               commonPath libs)^[k + 1] t0).dlqueue) := by
  constructor
  · intro key e buf objects hfile hhash k t0
    rw [Function.iterate_succ_apply']
    set ast := assetFromIndexEntry sep commonPath key e with hast
    have hvalid : validateLocal fsys calcHash ast.dest "sha1" ast.hash = true := by
      have hh : ast.hash = some e.hash := rfl
      rw [validateLocal, hfile, hh]
      simp [hhash]
    exact notMem_foldl_assetValidateStep fsys calcHash sep commonPath ast hvalid
      objects ([], 0) (by simp)
  · intro platform arch lib art buf h libs hfile hsha hhash k t0
    rw [Function.iterate_succ_apply']
    set itm := libraryItemOf sep commonPath lib art with hitm
    have hvalid : validateLocal fsys calcHash itm.dest "sha1" itm.hash = true := by
      have hh : itm.hash = art.sha1 := rfl
      rw [validateLocal, hfile, hh, hsha]
      simp [hhash]
    exact notMem_foldl_libValidateStep fsys calcHash platform arch sep commonPath
      itm hvalid libs ([], 0) (by simp)

/-- Witness for C2 at concrete inputs: a one-entry asset index whose
object file is present with the matching digest, and a one-library list
whose jar is present with the matching digest; neither pass enqueues
the artifact, on a first pass or a repeated one. -/
theorem c2_valid_artifact_never_enqueued_witness :
    (assetFromIndexEntry "/" "c" "k" ⟨"ab", 1⟩ ∉
      ((fun _ => assetChainValidateAssets
          (fun p => if p = "c/assets/objects/ab/ab" then some "X" else none)
          (fun _ _ => "ab") "/" "c" [("k", ⟨"ab", 1⟩)])^[1]
        (⟨[], 0⟩ : DLTracker)).dlqueue) ∧
    (libraryItemOf "/" "c" ⟨"lib:1.0", none, none,
        some ⟨some "cd", 2, "u", "lib.jar"⟩, []⟩ ⟨some "cd", 2, "u", "lib.jar"⟩ ∉
      ((fun _ => validateLibrariesRun
          (fun p => if p = "c/libraries/lib.jar" then some "Y" else none)
          (fun _ _ => "cd") "linux" "x64" "/" "c"
          [⟨"lib:1.0", none, none, some ⟨some "cd", 2, "u", "lib.jar"⟩, []⟩])^[2]
        (⟨[], 0⟩ : DLTracker)).dlqueue) := by
  constructor
  · exact (c2_valid_artifact_never_enqueued
      (fun p => if p = "c/assets/objects/ab/ab" then some "X" else none)
      (fun _ _ => "ab") "/" "c").1 "k" ⟨"ab", 1⟩ "X" [("k", ⟨"ab", 1⟩)]
      (by decide) (by decide) 0 ⟨[], 0⟩
  · exact (c2_valid_artifact_never_enqueued
      (fun p => if p = "c/libraries/lib.jar" then some "Y" else none)
      (fun _ _ => "cd") "/" "c").2 "linux" "x64"
      ⟨"lib:1.0", none, none, some ⟨some "cd", 2, "u", "lib.jar"⟩, []⟩
      ⟨some "cd", 2, "u", "lib.jar"⟩ "Y" "cd"
      [⟨"lib:1.0", none, none, some ⟨some "cd", 2, "u", "lib.jar"⟩, []⟩]
      (by decide) rfl (by decide) 1 ⟨[], 0⟩

/-- C3. With a `null` expected hash, `_validateLocal` reports valid
exactly when the destination file exists, regardless of contents and of
the hash function; consequently a null-hash library artifact whose file
exists is never enqueued by the library validation pass. -/
theorem c3_null_hash_trusts_local (fsys : String → Option String)
    (calcHash : String → String → String) :
    (∀ filePath algo,
       validateLocal fsys calcHash filePath algo none = (fsys filePath).isSome) ∧
    (∀ filePath algo hash, fsys filePath = none →
       validateLocal fsys calcHash filePath algo hash = false) ∧
    (∀ (platform arch sep commonPath : String) (lib : LibDescriptor)
       (art : DownloadArtifact) (buf : String) (libs : List LibDescriptor),
       fsys (libraryItemOf sep commonPath lib art).dest = some buf →
       art.sha1 = none →
       libraryItemOf sep commonPath lib art ∉
         (validateLibrariesRun fsys calcHash platform arch sep commonPath
           libs).dlqueue) := by
  refine ⟨fun filePath algo => ?_, fun filePath algo hash hnone => ?_,
    fun platform arch sep commonPath lib art buf libs hfile hsha => ?_⟩
  · unfold validateLocal
    cases fsys filePath <;> simp
  · unfold validateLocal
    rw [hnone]
  · set itm := libraryItemOf sep commonPath lib art with hitm
    have hvalid : validateLocal fsys calcHash itm.dest "sha1" itm.hash = true := by
      have hh : itm.hash = art.sha1 := rfl
      rw [validateLocal, hfile, hh, hsha]
    exact notMem_foldl_libValidateStep fsys calcHash platform arch sep commonPath
      itm hvalid libs ([], 0) (by simp)

/-- Witness for C3 at concrete inputs: a missing file is invalid for an
arbitrary hash, and a null-hash library with an existing file is not
enqueued. -/
theorem c3_null_hash_trusts_local_witness :
    (validateLocal (fun _ => none) (fun _ _ => "zz") "p" "sha1"
      (some "ab") = false) ∧
    (libraryItemOf "/" "c" ⟨"lib:1.0", none, none,
        some ⟨none, 2, "u", "lib.jar"⟩, []⟩ ⟨none, 2, "u", "lib.jar"⟩ ∉
      (validateLibrariesRun
        (fun p => if p = "c/libraries/lib.jar" then some "anything" else none)
        (fun _ _ => "zz") "linux" "x64" "/" "c"
        [⟨"lib:1.0", none, none, some ⟨none, 2, "u", "lib.jar"⟩, []⟩]).dlqueue) := by
  constructor
  · exact (c3_null_hash_trusts_local (fun _ => none) (fun _ _ => "zz")).2.1
      "p" "sha1" (some "ab") rfl
  · exact (c3_null_hash_trusts_local
      (fun p => if p = "c/libraries/lib.jar" then some "anything" else none)
      (fun _ _ => "zz")).2.2 "linux" "x64" "/" "c"
      ⟨"lib:1.0", none, none, some ⟨none, 2, "u", "lib.jar"⟩, []⟩
      ⟨none, 2, "u", "lib.jar"⟩ "anything"
      [⟨"lib:1.0", none, none, some ⟨none, 2, "u", "lib.jar"⟩, []⟩]
      (by decide) rfl

/-! ## Download completion classification (AssetGuard.startAsyncProcess) -/

/-- The classification of one successfully written artifact in the
write-stream close handler of `startAsyncProcess`. -/
inductive DownloadOutcome
  /-- Content length matched the expected size: complete, no hash check. -/
  | ok
  /-- Sizes differed but the hash matched: logged as a distro-index
  warning, artifact still complete. -/
  | distroWarn
  /-- Sizes differed and the hash check also failed: logged as possible
  corruption. -/
  | corrupt
deriving Repr, DecidableEq

/-- The close-handler logic of `startAsyncProcess` for one artifact that
was written successfully: `doHashCheck` is set exactly when the
server-reported content length differs from the expected size, and in
that case `_validateLocal` re-validates the just-written file (`md5` for
a typed artifact, `sha1` otherwise); all three branches resolve the
artifact's promise. -/
def downloadCloseClassify (fsys : String → Option String)
    (calcHash : String → String → String) (asset : Asset)
    (content : String) (contentLength : Nat) : DownloadOutcome :=
  let doHashCheck := contentLength != asset.size
  let fsys1 := fun p => if p = asset.dest then some content else fsys p
  if doHashCheck then
    if validateLocal fsys1 calcHash asset.dest
        (if asset.type.isSome then "md5" else "sha1") asset.hash then
      .distroWarn
    else .corrupt
  else .ok

/-- C4. When the reported content length equals the expected size, the
artifact is classified complete with no hash re-check (the result does
not depend on the hash function or the expected hash at all); when the
lengths differ, a matching hash on the written file yields only the
distro-index warning (still complete), and the artifact is classified
corrupted exactly when the hash comparison also fails. -/
theorem c4_size_mismatch_hash_fallback (fsys : String → Option String)
    (calcHash : String → String → String) (asset : Asset) (content : String)
    (contentLength : Nat) :
    (contentLength = asset.size →
      downloadCloseClassify fsys calcHash asset content contentLength = .ok ∧
      ∀ calcHash2 hash2,
        downloadCloseClassify fsys calcHash2 { asset with hash := hash2 }
          content contentLength = .ok) ∧
    (contentLength ≠ asset.size → ∀ h, asset.hash = some h →
      (calcHash (if asset.type.isSome then "md5" else "sha1") content =
          jsToLower h →
        downloadCloseClassify fsys calcHash asset content contentLength =
          .distroWarn) ∧
      (calcHash (if asset.type.isSome then "md5" else "sha1") content ≠
          jsToLower h →
        downloadCloseClassify fsys calcHash asset content contentLength =
          .corrupt)) := by
  constructor
  · intro hlen
    constructor
    · simp [downloadCloseClassify, hlen]
    · intro calcHash2 hash2
      simp [downloadCloseClassify, hlen]
  · intro hlen h hhash
    have hne : (contentLength != asset.size) = true := by
      simpa using hlen
    constructor
    · intro hmatch
      simp only [downloadCloseClassify, hne, if_pos]
      have : validateLocal
          (fun p => if p = asset.dest then some content else fsys p) calcHash
          asset.dest (if asset.type.isSome then "md5" else "sha1")
          asset.hash = true := by
        rw [validateLocal]
        simp [hhash, hmatch]
      rw [this]
      simp
    · intro hmiss
      simp only [downloadCloseClassify, hne, if_pos]
      have : validateLocal
          (fun p => if p = asset.dest then some content else fsys p) calcHash
          asset.dest (if asset.type.isSome then "md5" else "sha1")
          asset.hash = false := by
        rw [validateLocal]
        simp [hhash, hmiss]
      rw [this]
      simp

/-- Witness for C4 at concrete inputs: an exact-length write is complete
with no hash consulted; a short write with matching digest is only the
warning; a short write with a wrong digest is corrupt. -/
theorem c4_size_mismatch_hash_fallback_witness :
    (downloadCloseClassify (fun _ => none) (fun _ _ => "aa")
      ⟨"a", some "aa", 3, "u", "d", none⟩ "xyz" 3 = .ok) ∧
    (downloadCloseClassify (fun _ => none) (fun _ _ => "aa")
      ⟨"a", some "aa", 3, "u", "d", none⟩ "xy" 2 = .distroWarn) ∧
    (downloadCloseClassify (fun _ => none) (fun _ _ => "zz")
      ⟨"a", some "aa", 3, "u", "d", none⟩ "xy" 2 = .corrupt) := by
  refine ⟨((c4_size_mismatch_hash_fallback (fun _ => none) (fun _ _ => "aa")
      ⟨"a", some "aa", 3, "u", "d", none⟩ "xyz" 3).1 rfl).1, ?_, ?_⟩
  · exact (((c4_size_mismatch_hash_fallback (fun _ => none) (fun _ _ => "aa")
      ⟨"a", some "aa", 3, "u", "d", none⟩ "xy" 2).2 (by decide) "aa" rfl).1
      (by decide))
  · exact (((c4_size_mismatch_hash_fallback (fun _ => none) (fun _ _ => "zz")
      ⟨"a", some "aa", 3, "u", "d", none⟩ "xy" 2).2 (by decide) "aa" rfl).2
      (by decide))

/-! ## Download orchestrator (AssetGuard.startAsyncProcess / processDlQueues)

The orchestrator's observable signals. Per-chunk progress events carry no
information the verified claims consult and are omitted; the events kept
are the `error` signal on a failed fetch, the `progress`/`extract` signal
emitted before the pack-extraction backlog is processed, and the
aggregate `complete`/`download` signal. -/

inductive AGEvent
  /-- `emit('error', 'download', err)` from the axios rejection handler. -/
  | errorDownload
  /-- `emit('progress', 'extract', 1, 1)` before `_extractPackXZ`. -/
  | progressExtract
  /-- `emit('complete', 'download')`. -/
  | completeDownload
deriving Repr, DecidableEq

/-- The shared counters and event trace threaded through a category's
download loop. -/
structure OrchTotals where
  totaldlsize : Int
  progress : Int
  events : List AGEvent
deriving Repr, DecidableEq

/-- The `for (const asset of dlQueue)` loop of `startAsyncProcess`.

On a successful fetch the expected total is first adjusted when the
reported content length differs from the expected size, then the body's
bytes are accumulated into `progress` (the per-chunk increments summed),
and the close handler (classified by `downloadCloseClassify`) resolves
the artifact. On a fetch failure — a network error or non-2xx status,
both of which reject the axios promise — the `error` signal is emitted,
the rejection handler returns `undefined`, the subsequent `req.data`
access throws, and the `catch` block calls `reject()`; the `await` on the
rejected per-asset promise then re-raises out of `startAsyncProcess`, so
the loop is abandoned. Returns the final totals, whether the loop
aborted this way, and the artifacts actually attempted. -/
def processQueueGo (fetch : Asset → Option (Nat × String)) :
    List Asset → OrchTotals → OrchTotals × Bool × List Asset
  | [], st => (st, false, [])
  | a :: rest, st =>
    match fetch a with
    | none =>
      ({ st with events := st.events ++ [.errorDownload] }, true, [a])
    | some (clen, _body) =>
      let st1 := if clen ≠ a.size then
          { st with totaldlsize := st.totaldlsize - (a.size : Int) + (clen : Int) }
        else st
      let st2 := { st1 with progress := st1.progress + (clen : Int) }
      let r := processQueueGo fetch rest st2
      (r.1, r.2.1, a :: r.2.2)

/-- The `AssetGuard` state the orchestrator reads and writes: the shared
counters, the per-identifier trackers, the pack-extraction backlog and
the emitted events. (The `java` tracker's completion callback is outside
the verified claims and is not modelled.) -/
structure AGState where
  totaldlsize : Int
  progress : Int
  trackers : String → DLTracker
  extractQueue : List String
  events : List AGEvent

/-- `AssetGuard.startAsyncProcess(identifier)`: an empty queue returns
`false` at once and touches nothing. Otherwise the queue is drained; if
the loop aborted, the thrown rejection skips the tracker reset and the
completion check entirely. On a full drain the tracker is reset to
empty, and when the accumulated progress has reached the expected total
the extraction backlog (if any) is processed and the aggregate
completion signal is emitted. Returns the state, whether the process
began (queue non-empty), whether it aborted, and the attempted
artifacts. -/
def startAsyncProcess (fetch : Asset → Option (Nat × String)) (ag : AGState)
    (identifier : String) : AGState × Bool × Bool × List Asset :=
  let dlQueue := (ag.trackers identifier).dlqueue
  if dlQueue.isEmpty then (ag, false, false, [])
  else
    let r := processQueueGo fetch dlQueue ⟨ag.totaldlsize, ag.progress, ag.events⟩
    let ag1 := { ag with
      totaldlsize := r.1.totaldlsize
      progress := r.1.progress
      events := r.1.events }
    if r.2.1 then (ag1, true, true, r.2.2)
    else
      let ag2 := { ag1 with trackers := fun i =>
        if i = identifier then ⟨[], 0⟩ else ag1.trackers i }
      if ag2.totaldlsize ≤ ag2.progress then
        if ag2.extractQueue.isEmpty then
          ({ ag2 with events := ag2.events ++ [.completeDownload] },
           true, false, r.2.2)
        else
          ({ ag2 with
              extractQueue := []
              events := ag2.events ++ [.progressExtract, .completeDownload] },
           true, false, r.2.2)
      else (ag2, true, false, r.2.2)

/-- The identifier loop of `processDlQueues`: identifiers are processed
in order; a begun (non-empty) category clears `shouldFire`; an abort
escapes the loop (the rejection propagates out of the awaited call), so
the remaining identifiers are never processed. -/
def processDlQueuesGo (fetch : Asset → Option (Nat × String)) :
    List String → AGState → Bool → AGState × Bool × Bool
  | [], ag, shouldFire => (ag, false, shouldFire)
  | iden :: rest, ag, shouldFire =>
    let r := startAsyncProcess fetch ag iden
    if r.2.2.1 then (r.1, true, shouldFire)
    else processDlQueuesGo fetch rest r.1 (if r.2.1 then false else shouldFire)

/-- `AssetGuard.processDlQueues(identifiers)`: the expected total is the
sum of the requested trackers' sizes, progress restarts at zero, the
identifiers are drained in order, and if no category had queued work the
aggregate completion signal is emitted directly. Returns the final state
and whether the run aborted on a fetch failure (in the source the
rejection leaves the returned promise pending forever). -/
def processDlQueues (fetch : Asset → Option (Nat × String)) (ag0 : AGState)
    (idens : List String) : AGState × Bool :=
  let total : Int := (idens.map fun i => ((ag0.trackers i).dlsize : Int)).sum
  let ag := { ag0 with totaldlsize := total, progress := 0 }
  let r := processDlQueuesGo fetch idens ag true
  if r.2.1 then (r.1, true)
  else if r.2.2 then
    ({ r.1 with events := r.1.events ++ [.completeDownload] }, false)
  else (r.1, false)

/-- The `assets` category used by the C5 evaluation: two artifacts. -/
def c5Tracker : DLTracker :=
  ⟨[⟨"a1", some "h1", 10, "u1", "d1", none⟩,
    ⟨"a2", some "h2", 20, "u2", "d2", none⟩], 30⟩

/-- The guard state used by the C5 evaluation. -/
def c5State : AGState :=
  { totaldlsize := 0
    progress := 0
    trackers := fun i => if i = "assets" then c5Tracker else ⟨[], 0⟩
    extractQueue := []
    events := [] }

/-- C5, evaluated at the failing input. With two artifacts queued and the
fetch of the first failing, the per-asset promise rejects and the
un-guarded `await` aborts the loop: the error signal is emitted, but the
second artifact is never attempted, the tracker is never reset, and no
completion signal fires — and a `processDlQueues` run over this category
and a further one stops there, leaving the queue intact. This contradicts
the claim, which the surrounding dead bookkeeping (`let err` and the
post-loop `if (err)` summary, unreachable because the rejection escapes
first) and the specified all-continue policy show to be the intent. -/
theorem c5_fetch_failure_aborts_category :
    (startAsyncProcess (fun _ => none) c5State "assets").2.2.1 = true ∧
    (startAsyncProcess (fun _ => none) c5State "assets").2.2.2 =
      [⟨"a1", some "h1", 10, "u1", "d1", none⟩] ∧
    ((startAsyncProcess (fun _ => none) c5State "assets").1.trackers
      "assets").dlqueue = c5Tracker.dlqueue ∧
    (startAsyncProcess (fun _ => none) c5State "assets").1.events =
      [AGEvent.errorDownload] ∧
    (processDlQueues (fun _ => none) c5State ["assets", "libraries"]).2 =
      true ∧
    ((processDlQueues (fun _ => none) c5State
      ["assets", "libraries"]).1.trackers "assets").dlqueue =
      c5Tracker.dlqueue := by
  refine ⟨rfl, by decide, by decide, by decide, rfl, by decide⟩

/-- Sum of the queued artifact sizes, as the JS number arithmetic. -/
def sumSizes (q : List Asset) : Int := (q.map fun a => (a.size : Int)).sum

/-- Sum of the requested trackers' recorded sizes (the `totaldlsize`
accumulation loop of `processDlQueues`). -/
def sumDl (ag : AGState) (idens : List String) : Int :=
  (idens.map fun i => ((ag.trackers i).dlsize : Int)).sum

/-- Whether every requested tracker's queue is empty. -/
def allEmptyB (ag : AGState) (idens : List String) : Bool :=
  idens.all fun i => (ag.trackers i).dlqueue.isEmpty

/-- The guard state used by the C6 counterexample: two categories, each
holding one zero-size artifact, consistently recorded with size zero. -/
def c6State : AGState :=
  { totaldlsize := 0
    progress := 0
    trackers := fun i =>
      if i = "assets" then ⟨[⟨"a", some "h", 0, "u", "da", none⟩], 0⟩
      else if i = "libraries" then ⟨[⟨"b", some "h", 0, "u", "db", none⟩], 0⟩
      else ⟨[], 0⟩
    extractQueue := []
    events := [] }

/-- Counterexample to C6 as stated: with two categories each holding one
zero-size artifact and every fetch succeeding with the exact reported
length, the running progress reaches the expected total (zero) already
when the first category drains, so the aggregate completion signal is
emitted once per category — twice, not exactly once. -/
theorem c6_two_completes_on_zero_size_queues :
    (processDlQueues (fun a => some (a.size, "")) c6State
      ["assets", "libraries"]).1.events =
      [AGEvent.completeDownload, AGEvent.completeDownload] ∧
    ¬ ((processDlQueues (fun a => some (a.size, "")) c6State
        ["assets", "libraries"]).1.events.count AGEvent.completeDownload = 1) := by
  exact ⟨by decide, by decide⟩

/-- With every fetch succeeding and reporting exactly the expected size,
a category loop drains its whole queue: no abort, no total adjustment,
progress advanced by the sum of the sizes, every artifact attempted. -/
theorem processQueueGo_success (body : Asset → String) (q : List Asset) :
    ∀ st : OrchTotals,
    processQueueGo (fun a => some (a.size, body a)) q st =
      ({ st with progress := st.progress + sumSizes q }, false, q) := by
  induction q with
  | nil => intro st; simp [processQueueGo, sumSizes]
  | cons a rest ih =>
    intro st
    simp [processQueueGo, ih, sumSizes, add_assoc]

theorem sumSizes_nonneg (q : List Asset) : 0 ≤ sumSizes q := by
  unfold sumSizes
  apply List.sum_nonneg
  intro x hx
  rcases List.mem_map.mp hx with ⟨a, _, rfl⟩
  positivity

theorem sumDl_nonneg (ag : AGState) (l : List String) : 0 ≤ sumDl ag l := by
  unfold sumDl
  induction l with
  | nil => simp
  | cons i rest ih =>
    simp only [List.map_cons, List.sum_cons]
    positivity

theorem sumDl_congr (ag1 ag2 : AGState) (l : List String)
    (h : ∀ i ∈ l, ag1.trackers i = ag2.trackers i) :
    sumDl ag1 l = sumDl ag2 l := by
  unfold sumDl
  induction l with
  | nil => rfl
  | cons i rest ih =>
    simp only [List.map_cons, List.sum_cons]
    rw [h i (List.mem_cons_self i rest),
      ih fun j hj => h j (List.mem_cons_of_mem i hj)]

theorem allEmptyB_congr (ag1 ag2 : AGState) (l : List String)
    (h : ∀ i ∈ l, ag1.trackers i = ag2.trackers i) :
    allEmptyB ag1 l = allEmptyB ag2 l := by
  unfold allEmptyB
  induction l with
  | nil => rfl
  | cons i rest ih =>
    simp only [List.all_cons]
    rw [h i (List.mem_cons_self i rest),
      ih fun j hj => h j (List.mem_cons_of_mem i hj)]

/-- Positive member sizes make the size sum of a non-empty queue
positive, so a zero sum forces an empty queue. -/
theorem sumSizes_eq_zero_iff (q : List Asset)
    (hpos : ∀ a ∈ q, 0 < a.size) : sumSizes q = 0 ↔ q = [] := by
  cases q with
  | nil => simp [sumSizes]
  | cons a rest =>
    simp only [sumSizes, List.map_cons, List.sum_cons]
    constructor
    · intro h
      exfalso
      have ha : (0 : Int) < a.size := by
        exact_mod_cast hpos a (List.mem_cons_self a rest)
      have hr : 0 ≤ ((rest.map fun a => (a.size : Int)).sum) := by
        simpa [sumSizes] using sumSizes_nonneg rest
      omega
    · intro h
      exact absurd h (List.cons_ne_nil a rest)

/-- Under the size-consistency and positivity invariants, the requested
trackers' recorded sizes sum to zero exactly when all their queues are
empty. -/
theorem sumDl_eq_zero_iff (ag : AGState) (l : List String)
    (hcons : ∀ i, ((ag.trackers i).dlsize : Int) = sumSizes (ag.trackers i).dlqueue)
    (hpos : ∀ i a, a ∈ (ag.trackers i).dlqueue → 0 < a.size) :
    (sumDl ag l = 0 ↔ allEmptyB ag l = true) := by
  induction l with
  | nil => simp [sumDl, allEmptyB]
  | cons i rest ih =>
    simp only [sumDl, List.map_cons, List.sum_cons, allEmptyB, List.all_cons,
      Bool.and_eq_true] at ih ⊢
    have hnn : (0 : Int) ≤ ((ag.trackers i).dlsize : Int) := by positivity
    have hrest : 0 ≤ ((rest.map fun j => ((ag.trackers j).dlsize : Int)).sum) := by
      have := sumDl_nonneg ag rest
      simpa [sumDl] using this
    constructor
    · intro h
      have h1 : ((ag.trackers i).dlsize : Int) = 0 := by omega
      have h2 : ((rest.map fun j => ((ag.trackers j).dlsize : Int)).sum) = 0 := by
        omega
      refine ⟨?_, ih.mp h2⟩
      rw [hcons i] at h1
      have := (sumSizes_eq_zero_iff (ag.trackers i).dlqueue
        (fun a ha => hpos i a ha)).mp h1
      simp [this]
    · rintro ⟨h1, h2⟩
      have hq : (ag.trackers i).dlqueue = [] := by
        cases hq : (ag.trackers i).dlqueue with
        | nil => rfl
        | cons x xs => rw [hq] at h1; simp [List.isEmpty] at h1
      have : ((ag.trackers i).dlsize : Int) = 0 := by
        rw [hcons i, hq]; simp [sumSizes]
      rw [this, ih.mpr h2]
      ring

/-- An empty queue with a consistent recorded size is the empty tracker. -/
theorem tracker_empty_of_consistent (t : DLTracker)
    (hq : t.dlqueue = []) (hc : ((t.dlsize : Int)) = sumSizes t.dlqueue) :
    t = ⟨[], 0⟩ := by
  cases t with
  | mk q s =>
    simp only at hq
    subst hq
    simp only [sumSizes, List.map_nil, List.sum_nil] at hc
    have : s = 0 := by exact_mod_cast hc
    rw [this]

/-- `startAsyncProcess` on an empty queue returns `false` and changes
nothing, for any fetch oracle. -/
theorem startAsyncProcess_empty (fetch : Asset → Option (Nat × String))
    (ag : AGState) (iden : String)
    (hqe : (ag.trackers iden).dlqueue.isEmpty = true) :
    startAsyncProcess fetch ag iden = (ag, false, false, []) := by
  unfold startAsyncProcess
  simp [hqe]

/-- `startAsyncProcess` on a non-empty queue, with every fetch succeeding
at the exact expected size: the queue drains fully, the tracker is reset,
and the completion check runs against the advanced progress. -/
theorem startAsyncProcess_nonempty (body : Asset → String) (ag : AGState)
    (iden : String) (hne : (ag.trackers iden).dlqueue.isEmpty = false) :
    startAsyncProcess (fun a => some (a.size, body a)) ag iden =
      (let prog := ag.progress + sumSizes (ag.trackers iden).dlqueue
       let ag2 : AGState :=
         { totaldlsize := ag.totaldlsize
           progress := prog
           trackers := fun i => if i = iden then ⟨[], 0⟩ else ag.trackers i
           extractQueue := ag.extractQueue
           events := ag.events }
       if ag.totaldlsize ≤ prog then
         if ag.extractQueue.isEmpty then
           ({ ag2 with events := ag2.events ++ [AGEvent.completeDownload] },
            true, false, (ag.trackers iden).dlqueue)
         else
           ({ ag2 with
               extractQueue := []
               events := ag2.events ++
                 [AGEvent.progressExtract, AGEvent.completeDownload] },
            true, false, (ag.trackers iden).dlqueue)
       else (ag2, true, false, (ag.trackers iden).dlqueue)) := by
  unfold startAsyncProcess
  simp only [hne, Bool.false_eq_true, if_false, processQueueGo_success]

/-- The identifier loop under all-successful exact-size fetches, distinct
identifiers, consistent recorded sizes and positive artifact sizes:
no abort; the expected total is untouched; trackers are only ever
replaced by the empty tracker; every requested tracker ends empty;
exactly one completion signal is appended unless every requested queue
was already empty (in which case none, and `shouldFire` survives); and
the extraction backlog ends empty whenever some requested queue had
work, and is untouched otherwise. -/
theorem processDlQueuesGo_spec (body : Asset → String) (idens : List String) :
    ∀ (ag : AGState) (sf : Bool),
    idens.Nodup →
    (∀ i, ((ag.trackers i).dlsize : Int) = sumSizes (ag.trackers i).dlqueue) →
    (∀ i a, a ∈ (ag.trackers i).dlqueue → 0 < a.size) →
    ag.progress + sumDl ag idens = ag.totaldlsize →
    (let r := processDlQueuesGo (fun a => some (a.size, body a)) idens ag sf
     r.2.1 = false ∧
     r.1.totaldlsize = ag.totaldlsize ∧
     (∀ i, r.1.trackers i = ag.trackers i ∨ r.1.trackers i = ⟨[], 0⟩) ∧
     (∀ i ∈ idens, r.1.trackers i = ⟨[], 0⟩) ∧
     r.1.events.count AGEvent.completeDownload =
       ag.events.count AGEvent.completeDownload +
         (if allEmptyB ag idens then 0 else 1) ∧
     r.2.2 = (sf && allEmptyB ag idens) ∧
     (allEmptyB ag idens = false → r.1.extractQueue = []) ∧
     (allEmptyB ag idens = true → r.1.extractQueue = ag.extractQueue)) := by
  induction idens with
  | nil =>
    intro ag sf _ _ _ _
    refine ⟨rfl, rfl, fun i => Or.inl rfl, by simp, ?_, ?_, ?_, fun _ => rfl⟩
    · simp [allEmptyB, processDlQueuesGo]
    · simp [allEmptyB, processDlQueuesGo]
    · intro h
      simp [allEmptyB] at h
  | cons iden rest ih =>
    intro ag sf hnodup hcons hpos hprog
    obtain ⟨hnotin, hnodup2⟩ := List.nodup_cons.mp hnodup
    by_cases hqe : (ag.trackers iden).dlqueue.isEmpty = true
    · -- empty queue: nothing happens for this identifier
      have hq0 : (ag.trackers iden).dlqueue = [] := by
        simpa [List.isEmpty_iff] using hqe
      have htr0 : ag.trackers iden = ⟨[], 0⟩ :=
        tracker_empty_of_consistent _ hq0 (hcons iden)
      have hstep : processDlQueuesGo (fun a => some (a.size, body a))
          (iden :: rest) ag sf =
          processDlQueuesGo (fun a => some (a.size, body a)) rest ag sf := by
        simp [processDlQueuesGo, startAsyncProcess_empty _ ag iden hqe]
      have hsum0 : ((ag.trackers iden).dlsize : Int) = 0 := by
        rw [hcons iden, hq0]
        simp [sumSizes]
      have hprog2 : ag.progress + sumDl ag rest = ag.totaldlsize := by
        have : sumDl ag (iden :: rest) =
            ((ag.trackers iden).dlsize : Int) + sumDl ag rest := by
          simp [sumDl]
        omega
      have hall : allEmptyB ag (iden :: rest) = allEmptyB ag rest := by
        simp [allEmptyB, hqe]
      obtain ⟨h1, h2, h3, h4, h5, h6, h7, h8⟩ :=
        ih ag sf hnodup2 hcons hpos hprog2
      rw [hstep]
      refine ⟨h1, h2, h3, ?_, ?_, ?_, ?_, ?_⟩
      · intro i hi
        rcases List.mem_cons.mp hi with rfl | hi2
        · rcases h3 i with hpres | hreset
          · rw [hpres, htr0]
          · exact hreset
        · exact h4 i hi2
      · rw [hall]
        exact h5
      · rw [hall]
        exact h6
      · rw [hall]
        exact h7
      · rw [hall]
        exact h8
    · -- non-empty queue: the category drains and may fire the completion
      have hne : (ag.trackers iden).dlqueue.isEmpty = false := by
        simpa using hqe
      have hstep := startAsyncProcess_nonempty body ag iden hne
      have hallcons : allEmptyB ag (iden :: rest) = false := by
        simp [allEmptyB, hne]
      have hsumcons : sumDl ag (iden :: rest) =
          ((ag.trackers iden).dlsize : Int) + sumDl ag rest := by
        simp [sumDl]
      have hS : ((ag.trackers iden).dlsize : Int) =
          sumSizes (ag.trackers iden).dlqueue := hcons iden
      -- the post-drain state common to all branches
      set prog := ag.progress + sumSizes (ag.trackers iden).dlqueue with hprogdef
      set ag2 : AGState :=
        { totaldlsize := ag.totaldlsize
          progress := prog
          trackers := fun i => if i = iden then ⟨[], 0⟩ else ag.trackers i
          extractQueue := ag.extractQueue
          events := ag.events } with hag2
      have hag2tr : ∀ i ∈ rest, ag2.trackers i = ag.trackers i := by
        intro i hi
        have : i ≠ iden := fun h => hnotin (h ▸ hi)
        simp [hag2, this]
      have hcons2 : ∀ i, ((ag2.trackers i).dlsize : Int) =
          sumSizes (ag2.trackers i).dlqueue := by
        intro i
        by_cases h : i = iden <;> simp [hag2, h, sumSizes, hcons i]
      have hpos2 : ∀ i a, a ∈ (ag2.trackers i).dlqueue → 0 < a.size := by
        intro i a ha
        by_cases h : i = iden
        · simp [hag2, h] at ha
        · simp [hag2, h] at ha
          exact hpos i a ha
      have hsumrest2 : sumDl ag2 rest = sumDl ag rest :=
        sumDl_congr ag2 ag rest hag2tr
      have hallrest2 : allEmptyB ag2 rest = allEmptyB ag rest :=
        allEmptyB_congr ag2 ag rest hag2tr
      have hprog2 : ag2.progress + sumDl ag2 rest = ag2.totaldlsize := by
        simp only [hag2, hsumrest2]
        omega
      have hrest_nonneg := sumDl_nonneg ag rest
      have hrest_zero_iff := sumDl_eq_zero_iff ag rest hcons hpos
      by_cases hfire : ag.totaldlsize ≤ prog
      · -- the drained category reaches the total: the completion fires here
        have hrest0 : sumDl ag rest = 0 := by omega
        have hallrest : allEmptyB ag rest = true := hrest_zero_iff.mp hrest0
        by_cases hxq : ag.extractQueue.isEmpty = true
        · -- no extraction backlog
          have hx0 : ag.extractQueue = [] := by
            simpa [List.isEmpty_iff] using hxq
          set ag3 : AGState :=
            { ag2 with events := ag2.events ++ [AGEvent.completeDownload] }
            with hag3
          have hstep2 : processDlQueuesGo (fun a => some (a.size, body a))
              (iden :: rest) ag sf =
              processDlQueuesGo (fun a => some (a.size, body a)) rest ag3 false := by
            simp only [processDlQueuesGo, hstep, hfire, if_pos, hxq, if_true]
            rfl
          have hag3tr : ∀ i ∈ rest, ag3.trackers i = ag2.trackers i :=
            fun i _ => rfl
          obtain ⟨h1, h2, h3, h4, h5, h6, h7, h8⟩ :=
            ih ag3 false hnodup2 hcons2 hpos2 (by simpa [hag3] using hprog2)
          have hallrest3 : allEmptyB ag3 rest = true := by
            rw [allEmptyB_congr ag3 ag2 rest hag3tr, hallrest2]
            exact hallrest
          rw [hstep2]
          refine ⟨h1, by rw [h2], ?_, ?_, ?_, ?_, ?_, ?_⟩
          · intro i
            rcases h3 i with hpres | hreset
            · rw [hpres]
              by_cases h : i = iden
              · exact Or.inr (by simp [hag3, hag2, h])
              · exact Or.inl (by simp [hag3, hag2, h])
            · exact Or.inr hreset
          · intro i hi
            rcases List.mem_cons.mp hi with rfl | hi2
            · rcases h3 i with hpres | hreset
              · rw [hpres]
                simp [hag3, hag2]
              · exact hreset
            · exact h4 i hi2
          · rw [h5, hallrest3, hallcons]
            simp [hag3, hag2]
          · rw [h6, hallcons]
            simp
          · intro _
            rcases h8 hallrest3 with h
            rw [h]
            simp [hag3, hag2, hx0]
          · intro h
            rw [hallcons] at h
            exact absurd h (by simp)
        · -- extraction backlog present: processed before the completion
          set ag3 : AGState :=
            { ag2 with
              extractQueue := []
              events := ag2.events ++
                [AGEvent.progressExtract, AGEvent.completeDownload] } with hag3
          have hstep2 : processDlQueuesGo (fun a => some (a.size, body a))
              (iden :: rest) ag sf =
              processDlQueuesGo (fun a => some (a.size, body a)) rest ag3 false := by
            simp only [processDlQueuesGo, hstep, hfire, if_pos, hxq,
              Bool.false_eq_true, if_false]
          have hag3tr : ∀ i ∈ rest, ag3.trackers i = ag2.trackers i :=
            fun i _ => rfl
          obtain ⟨h1, h2, h3, h4, h5, h6, h7, h8⟩ :=
            ih ag3 false hnodup2 hcons2 hpos2 (by simpa [hag3] using hprog2)
          have hallrest3 : allEmptyB ag3 rest = true := by
            rw [allEmptyB_congr ag3 ag2 rest hag3tr, hallrest2]
            exact hallrest
          rw [hstep2]
          refine ⟨h1, by rw [h2], ?_, ?_, ?_, ?_, ?_, ?_⟩
          · intro i
            rcases h3 i with hpres | hreset
            · rw [hpres]
              by_cases h : i = iden
              · exact Or.inr (by simp [hag3, hag2, h])
              · exact Or.inl (by simp [hag3, hag2, h])
            · exact Or.inr hreset
          · intro i hi
            rcases List.mem_cons.mp hi with rfl | hi2
            · rcases h3 i with hpres | hreset
              · rw [hpres]
                simp [hag3, hag2]
              · exact hreset
            · exact h4 i hi2
          · rw [h5, hallrest3, hallcons]
            simp [hag3, hag2]
          · rw [h6, hallcons]
            simp
          · intro _
            rcases h8 hallrest3 with h
            rw [h]
          · intro h
            rw [hallcons] at h
            exact absurd h (by simp)
      · -- the total is not yet reached: no completion from this category
        have hstep2 : processDlQueuesGo (fun a => some (a.size, body a))
            (iden :: rest) ag sf =
            processDlQueuesGo (fun a => some (a.size, body a)) rest ag2 false := by
          simp only [processDlQueuesGo, hstep, hfire, if_false, reduceIte]
          rfl
        have hrestpos : allEmptyB ag rest = false := by
          rcases h : allEmptyB ag rest with _ | _
          · rfl
          · exact absurd (hrest_zero_iff.mpr h) (by omega)
        obtain ⟨h1, h2, h3, h4, h5, h6, h7, h8⟩ :=
          ih ag2 false hnodup2 hcons2 hpos2 hprog2
        have hallrest3 : allEmptyB ag2 rest = false := by
          rw [hallrest2]
          exact hrestpos
        rw [hstep2]
        refine ⟨h1, by rw [h2], ?_, ?_, ?_, ?_, ?_, ?_⟩
        · intro i
          rcases h3 i with hpres | hreset
          · rw [hpres]
            by_cases h : i = iden
            · exact Or.inr (by simp [hag2, h])
            · exact Or.inl (by simp [hag2, h])
          · exact Or.inr hreset
        · intro i hi
          rcases List.mem_cons.mp hi with rfl | hi2
          · rcases h3 i with hpres | hreset
            · rw [hpres]
              simp [hag2]
            · exact hreset
          · exact h4 i hi2
        · rw [h5, hallrest3, hallcons]
        · rw [h6, hallcons]
          simp
        · intro _
          exact h7 hallrest3
        · intro h
          rw [hallcons] at h
          exact absurd h (by simp)

/-- C6, amended. For a `processDlQueues` run over distinct category
identifiers in which every fetch succeeds with the reported content
length equal to the expected size, each tracker's recorded size is the
sum of its members' sizes, and every queued artifact has positive size:
the expected total equals the sum of the categories' recorded queue
sizes, the run does not abort, every processed queue is reset to empty,
and exactly one aggregate download-complete signal is emitted, with the
queued extraction backlog processed (and cleared) before it whenever a
category had work. (Without the positivity proviso the signal can fire
once per trailing zero-size category — see the counterexample — and with
a fetch failure the run aborts — see C5.) -/
theorem c6_single_complete_after_drain (body : Asset → String)
    (ag0 : AGState) (idens : List String)
    (hnodup : idens.Nodup)
    (hcons : ∀ i, ((ag0.trackers i).dlsize : Int) =
      sumSizes (ag0.trackers i).dlqueue)
    (hpos : ∀ i a, a ∈ (ag0.trackers i).dlqueue → 0 < a.size) :
    (let r := processDlQueues (fun a => some (a.size, body a)) ag0 idens
     r.2 = false ∧
     r.1.totaldlsize = sumDl ag0 idens ∧
     (∀ i ∈ idens, r.1.trackers i = ⟨[], 0⟩) ∧
     r.1.events.count AGEvent.completeDownload =
       ag0.events.count AGEvent.completeDownload + 1 ∧
     (allEmptyB ag0 idens = false → r.1.extractQueue = [])) := by
  obtain ⟨h1, h2, h3, h4, h5, h6, h7, h8⟩ :=
    processDlQueuesGo_spec body idens
      { ag0 with
        totaldlsize := (idens.map fun i => ((ag0.trackers i).dlsize : Int)).sum
        progress := 0 }
      true hnodup (fun i => hcons i) (fun i a ha => hpos i a ha)
      (by simp [sumDl])
  set agI : AGState :=
    { ag0 with
      totaldlsize := (idens.map fun i => ((ag0.trackers i).dlsize : Int)).sum
      progress := 0 } with hagI
  set rGo := processDlQueuesGo (fun a => some (a.size, body a)) idens agI true
    with hrGo
  have hres : processDlQueues (fun a => some (a.size, body a)) ag0 idens =
      (if rGo.2.2 then
        ({ rGo.1 with events := rGo.1.events ++ [AGEvent.completeDownload] },
         false)
       else (rGo.1, false)) := by
    show (if rGo.2.1 then (rGo.1, true)
          else if rGo.2.2 then
            ({ rGo.1 with events := rGo.1.events ++ [AGEvent.completeDownload] },
             false)
          else (rGo.1, false)) = _
    rw [h1]
    simp
  have hAEeq : allEmptyB agI idens = allEmptyB ag0 idens := rfl
  have hEveq : agI.events = ag0.events := rfl
  by_cases hAE : allEmptyB ag0 idens = true
  · have hcond : rGo.2.2 = true := by
      rw [h6, Bool.true_and, hAEeq, hAE]
    have hres2 : processDlQueues (fun a => some (a.size, body a)) ag0 idens =
        ({ rGo.1 with events := rGo.1.events ++ [AGEvent.completeDownload] },
         false) := by
      rw [hres, hcond]
      simp
    refine ⟨by rw [hres2], ?_, ?_, ?_, ?_⟩
    · rw [hres2]
      show rGo.1.totaldlsize = sumDl ag0 idens
      rw [h2]
      rfl
    · intro i hi
      rw [hres2]
      exact h4 i hi
    · rw [hres2]
      show (rGo.1.events ++ [AGEvent.completeDownload]).count
          AGEvent.completeDownload =
        ag0.events.count AGEvent.completeDownload + 1
      rw [List.count_append, h5, hAEeq, hAE, hEveq]
      simp
    · intro hcontra
      rw [hcontra] at hAE
      exact absurd hAE (by simp)
  · have hAE2 : allEmptyB ag0 idens = false := by
      simpa using hAE
    have hcond : rGo.2.2 = false := by
      rw [h6, Bool.true_and, hAEeq, hAE2]
    have hres2 : processDlQueues (fun a => some (a.size, body a)) ag0 idens =
        (rGo.1, false) := by
      rw [hres, hcond]
      simp
    refine ⟨by rw [hres2], ?_, ?_, ?_, ?_⟩
    · rw [hres2]
      show rGo.1.totaldlsize = sumDl ag0 idens
      rw [h2]
      rfl
    · intro i hi
      rw [hres2]
      exact h4 i hi
    · rw [hres2]
      show rGo.1.events.count AGEvent.completeDownload =
        ag0.events.count AGEvent.completeDownload + 1
      rw [h5, hAEeq, hAE2, hEveq]
      simp
    · intro _
      rw [hres2]
      exact h7 (by rw [hAEeq, hAE2])

/-- The consistent, positive-size guard state used by the C6 witness:
the `assets` queue holds one artifact of size 10, the `libraries` queue
one of size 20. -/
def c6WitnessState : AGState :=
  { totaldlsize := 0
    progress := 0
    trackers := fun i =>
      if i = "assets" then ⟨[⟨"a", some "h", 10, "u", "da", none⟩], 10⟩
      else if i = "libraries" then ⟨[⟨"b", some "h", 20, "u", "db", none⟩], 20⟩
      else ⟨[], 0⟩
    extractQueue := []
    events := [] }

/-- Witness for the amended C6 at concrete inputs: a run over the two
categories above yields a total of 30 bytes, does not abort, resets both
queues, and emits exactly one completion signal. -/
theorem c6_single_complete_after_drain_witness :
    (processDlQueues (fun a => some (a.size, "")) c6WitnessState
      ["assets", "libraries"]).2 = false ∧
    (processDlQueues (fun a => some (a.size, "")) c6WitnessState
      ["assets", "libraries"]).1.totaldlsize = 30 ∧
    (processDlQueues (fun a => some (a.size, "")) c6WitnessState
      ["assets", "libraries"]).1.trackers "assets" = ⟨[], 0⟩ ∧
    (processDlQueues (fun a => some (a.size, "")) c6WitnessState
      ["assets", "libraries"]).1.events.count AGEvent.completeDownload = 1 := by
  obtain ⟨h1, h2, h3, h4, h5⟩ :=
    c6_single_complete_after_drain (fun _ => "") c6WitnessState
      ["assets", "libraries"] (by decide)
      (by
        intro i
        by_cases ha : i = "assets"
        · simp [c6WitnessState, ha, sumSizes]
        · by_cases hl : i = "libraries"
          · simp [c6WitnessState, ha, hl, sumSizes]
          · simp [c6WitnessState, ha, hl, sumSizes])
      (by
        intro i a hmem
        by_cases ha : i = "assets"
        · simp [c6WitnessState, ha] at hmem
          simp [hmem]
        · by_cases hl : i = "libraries"
          · simp [c6WitnessState, ha, hl] at hmem
            simp [hmem]
          · simp [c6WitnessState, ha, hl] at hmem)
  refine ⟨h1, ?_, h3 "assets" (by decide), by simpa using h4⟩
  rw [h2]
  decide

/-! ## Java candidate ordering (JavaGuard._sortValidJavaArray) -/

/-- A parsed Java runtime version. The legacy (Java 8) scheme populates
`major`/`update`/`build`, the modern scheme `major`/`minor`/`revision`/
`build`; the comparator only reads the fields of the scheme selected by
`major`, so the unused fields are irrelevant (they default to 0 for
convenient literals). -/
structure JVMVersion where
  major : Nat
  update : Nat := 0
  build : Nat := 0
  minor : Nat := 0
  revision : Nat := 0
deriving Repr, DecidableEq

/-- A validated JVM meta object as consumed by the sorter: parsed
version and executable path. -/
structure JVMMeta where
  version : JVMVersion
  execPath : String
deriving Repr, DecidableEq

/-- The comparator passed to `Array.prototype.sort` in
`JavaGuard._sortValidJavaArray`: negative places `a` before `b`.
Higher versions come first (major, then update/build for the Java 8
scheme, minor/revision for 9+); at a fully equal version a candidate
whose lowercased path lacks the substring `jdk` is placed first. -/
def sortJavaCompare (a b : JVMMeta) : Int :=
  if a.version.major = b.version.major then
    if a.version.major < 9 then
      if a.version.update = b.version.update then
        if a.version.build = b.version.build then
          if jsContains (jsToLower a.execPath) "jdk" then
            (if jsContains (jsToLower b.execPath) "jdk" then 0 else 1)
          else -1
        else if a.version.build > b.version.build then -1 else 1
      else if a.version.update > b.version.update then -1 else 1
    else
      if a.version.minor = b.version.minor then
        if a.version.revision = b.version.revision then
          if jsContains (jsToLower a.execPath) "jdk" then
            (if jsContains (jsToLower b.execPath) "jdk" then 0 else 1)
          else -1
        else if a.version.revision > b.version.revision then -1 else 1
      else if a.version.minor > b.version.minor then -1 else 1
  else if a.version.major > b.version.major then -1 else 1

/-- `JavaGuard._sortValidJavaArray`, with the engine's stable sort
modelled as a stable merge sort on the comparator. -/
def sortValidJavaArray (validArr : List JVMMeta) : List JVMMeta :=
  validArr.mergeSort fun a b => sortJavaCompare a b ≤ 0

/-- C7. The candidate ordering of `_sortValidJavaArray`: a strictly
higher version (major first, then update, then build, in the Java 8
scheme) is ranked first by the comparator; at an exactly equal version a
candidate whose path (lowercased) lacks the substring `jdk` ranks above
one whose path contains it; in particular `{major 8, update 60, build 1}`
ranks above `{major 8, update 60, build 0}`, and an update 60 candidate
ranks above an update 50 candidate regardless of their builds. -/
theorem c7_java_candidate_ordering :
    (∀ a b : JVMMeta, a.version.major ≠ b.version.major →
      (sortJavaCompare a b < 0 ↔ b.version.major < a.version.major)) ∧
    (∀ a b : JVMMeta, a.version.major = b.version.major →
      a.version.major < 9 → a.version.update ≠ b.version.update →
      (sortJavaCompare a b < 0 ↔ b.version.update < a.version.update)) ∧
    (∀ a b : JVMMeta, a.version.major = b.version.major →
      a.version.major < 9 → a.version.update = b.version.update →
      a.version.build ≠ b.version.build →
      (sortJavaCompare a b < 0 ↔ b.version.build < a.version.build)) ∧
    (∀ a b : JVMMeta, a.version = b.version → a.version.major < 9 →
      jsContains (jsToLower a.execPath) "jdk" = false →
      jsContains (jsToLower b.execPath) "jdk" = true →
      sortJavaCompare a b = -1 ∧ sortJavaCompare b a = 1) ∧
    sortJavaCompare ⟨{ major := 8, update := 60, build := 1 }, "p"⟩
      ⟨{ major := 8, update := 60, build := 0 }, "p"⟩ = -1 ∧
    (∀ b1 b2 : Nat, sortJavaCompare
      ⟨{ major := 8, update := 60, build := b1 }, "p"⟩
      ⟨{ major := 8, update := 50, build := b2 }, "q"⟩ = -1) := by
  refine ⟨?_, ?_, ?_, ?_, by decide, ?_⟩
  · intro a b hmaj
    simp only [sortJavaCompare, hmaj, if_false, reduceIte]
    by_cases h : a.version.major > b.version.major <;> simp [h]
  · intro a b hmaj hlt hupd
    simp only [sortJavaCompare, hmaj, if_pos, hlt, hupd, if_false, reduceIte]
    by_cases h : a.version.update > b.version.update <;> simp [h] <;> omega
  · intro a b hmaj hlt hupd hbuild
    simp only [sortJavaCompare, hmaj, if_pos, hlt, hupd, hbuild, if_false,
      reduceIte]
    by_cases h : a.version.build > b.version.build <;> simp [h] <;> omega
  · intro a b hver hlt hajdk hbjdk
    constructor
    · simp [sortJavaCompare, hver, hlt, hajdk]
    · simp [sortJavaCompare, hver.symm, hlt, hajdk, hbjdk,
        hver ▸ hlt]
  · intro b1 b2
    simp [sortJavaCompare]

/-- Witness for C7 at concrete inputs: the version comparisons and the
JRE-over-JDK tie-break evaluated on explicit candidates, and the sorted
order of a two-candidate array. -/
theorem c7_java_candidate_ordering_witness :
    (sortJavaCompare ⟨{ major := 9, minor := 1 }, "p"⟩
      ⟨{ major := 8, update := 60 }, "q"⟩ < 0) ∧
    (sortJavaCompare ⟨{ major := 8, update := 60, build := 0 }, "p"⟩
      ⟨{ major := 8, update := 60, build := 1 }, "p"⟩ < 0 ↔ False) ∧
    (sortJavaCompare ⟨{ major := 8, update := 60, build := 2 }, "/jre/bin"⟩
        ⟨{ major := 8, update := 60, build := 2 }, "/jdk8/bin"⟩ = -1 ∧
      sortJavaCompare ⟨{ major := 8, update := 60, build := 2 }, "/jdk8/bin"⟩
        ⟨{ major := 8, update := 60, build := 2 }, "/jre/bin"⟩ = 1) := by
  refine ⟨?_, ?_, ?_⟩
  · have h := (c7_java_candidate_ordering.1
      ⟨{ major := 9, minor := 1 }, "p"⟩ ⟨{ major := 8, update := 60 }, "q"⟩
      (by decide))
    exact h.mpr (by decide)
  · have h := (c7_java_candidate_ordering.2.2.1
      ⟨{ major := 8, update := 60, build := 0 }, "p"⟩
      ⟨{ major := 8, update := 60, build := 1 }, "p"⟩
      (by decide) (by decide) (by decide) (by decide))
    rw [h]
    simp
  · exact c7_java_candidate_ordering.2.2.2.1
      ⟨{ major := 8, update := 60, build := 2 }, "/jre/bin"⟩
      ⟨{ major := 8, update := 60, build := 2 }, "/jdk8/bin"⟩
      rfl (by decide) (by decide) (by decide)

/-! ## Java executable paths (JavaGuard.javaExecFromRoot / isJavaExecPath) -/

/-- `JavaGuard.javaExecFromRoot(rootDir)`: the platform-specific
executable path under a Java installation root; any other platform
returns the root unchanged. The separator is the platform's
(`\\` on win32, `/` elsewhere). -/
def javaExecFromRoot (platform rootDir : String) : String :=
  if platform = "win32" then
    pathJoin "\\" (pathJoin "\\" rootDir "bin") "javaw.exe"
  else if platform = "darwin" then
    pathJoin "/" (pathJoin "/" (pathJoin "/" (pathJoin "/" rootDir "Contents")
      "Home") "bin") "java"
  else if platform = "linux" then
    pathJoin "/" (pathJoin "/" rootDir "bin") "java"
  else rootDir

/-- `JavaGuard.isJavaExecPath(pth)`: the platform-specific executable
suffix check; any other platform yields `false`. -/
def isJavaExecPath (platform pth : String) : Bool :=
  if platform = "win32" then jsEndsWith pth (pathJoin "\\" "bin" "javaw.exe")
  else if platform = "darwin" then jsEndsWith pth (pathJoin "/" "bin" "java")
  else if platform = "linux" then jsEndsWith pth (pathJoin "/" "bin" "java")
  else false

theorem jsEndsWith_append (a b : String) : jsEndsWith (a ++ b) b = true := by
  unfold jsEndsWith
  rw [List.isSuffixOf_iff_suffix]
  show b.data <:+ (a ++ b).data
  rw [String.data_append]
  exact List.suffix_append a.data b.data

/-- C10. Path construction and path recognition round-trip: on each
supported platform (win32, darwin, linux), the executable path produced
by `javaExecFromRoot` from any root directory satisfies
`isJavaExecPath`, so a candidate root converted to an executable path is
never rejected by the suffix check of binary validation. -/
theorem c10_javaExecFromRoot_isJavaExecPath (rootDir : String) :
    isJavaExecPath "win32" (javaExecFromRoot "win32" rootDir) = true ∧
    isJavaExecPath "darwin" (javaExecFromRoot "darwin" rootDir) = true ∧
    isJavaExecPath "linux" (javaExecFromRoot "linux" rootDir) = true := by
  refine ⟨?_, ?_, ?_⟩
  · show jsEndsWith (pathJoin "\\" (pathJoin "\\" rootDir "bin") "javaw.exe")
      (pathJoin "\\" "bin" "javaw.exe") = true
    have : pathJoin "\\" (pathJoin "\\" rootDir "bin") "javaw.exe" =
        (rootDir ++ "\\") ++ pathJoin "\\" "bin" "javaw.exe" := by
      simp [pathJoin, String.append_assoc]
    rw [this]
    exact jsEndsWith_append _ _
  · show jsEndsWith (pathJoin "/" (pathJoin "/" (pathJoin "/"
        (pathJoin "/" rootDir "Contents") "Home") "bin") "java")
      (pathJoin "/" "bin" "java") = true
    have : pathJoin "/" (pathJoin "/" (pathJoin "/"
        (pathJoin "/" rootDir "Contents") "Home") "bin") "java" =
        (rootDir ++ "/" ++ "Contents" ++ "/" ++ "Home" ++ "/") ++
          pathJoin "/" "bin" "java" := by
      simp [pathJoin, String.append_assoc]
    rw [this]
    exact jsEndsWith_append _ _
  · show jsEndsWith (pathJoin "/" (pathJoin "/" rootDir "bin") "java")
      (pathJoin "/" "bin" "java") = true
    have : pathJoin "/" (pathJoin "/" rootDir "bin") "java" =
        (rootDir ++ "/") ++ pathJoin "/" "bin" "java" := by
      simp [pathJoin, String.append_assoc]
    rw [this]
    exact jsEndsWith_append _ _

/-! ## JVM binary validation (JavaGuard._validateJVMProperties /
_validateJavaBinary) -/

/-- A parsed Java runtime version. The legacy (Java 8) parser populates
`major`/`update`/`build`, the modern parser `major`/`minor`/`revision`/
`build`; `none` stands for JS `NaN` (a `parseInt` that found no digits)
or an untouched field. -/
structure ParsedVersion where
  major : Option Int := none
  minor : Option Int := none
  revision : Option Int := none
  update : Option Int := none
  build : Option Int := none
deriving Repr, DecidableEq

/-- `JavaGuard._parseJavaRuntimeVersion_8` (format
`1.{major}.0_{update}-b{build}`): with no `-` part the JS
`undefined.substring` throws (modelled as `.error`); the other
`parseInt` calls merely produce `NaN` on malformed pieces. -/
def parseJavaRuntimeVersion8 (verString : String) : Except Unit ParsedVersion :=
  let pts := jsSplit verString '-'
  match pts.get? 1 with
  | none => .error ()
  | some p1 =>
    let build := jsParseInt ⟨p1.data.drop 1⟩
    let pts2 := jsSplit (pts.headD "") '_'
    let update :=
      match pts2.get? 1 with
      | none => none
      | some u => jsParseInt u
    let major :=
      match (jsSplit (pts2.headD "") '.').get? 1 with
      | none => none
      | some m => jsParseInt m
    .ok { major := major, update := update, build := build }

/-- `JavaGuard._parseJavaRuntimeVersion_9` (format
`{major}.{minor}.{revision}+{build}`): never throws, missing pieces
parse to `NaN`. -/
def parseJavaRuntimeVersion9 (verString : String) : ParsedVersion :=
  let pts := jsSplit verString '+'
  let build :=
    match pts.get? 1 with
    | none => none
    | some b => jsParseInt b
  let pts2 := jsSplit (pts.headD "") '.'
  { major := jsParseInt (pts2.headD "")
    minor :=
      match pts2.get? 1 with
      | none => none
      | some m => jsParseInt m
    revision :=
      match pts2.get? 2 with
      | none => none
      | some r => jsParseInt r
    build := build }

/-- `JavaGuard.parseJavaRuntimeVersion`: dispatch on the leading
dot-separated component via the JS loose comparison `major == 1`, which
coerces the string with `ToNumber` (so `"1x"` is `NaN` and goes to the
modern parser). -/
def parseJavaRuntimeVersion (verString : String) : Except Unit ParsedVersion :=
  if jsLooseEqOne ((jsSplit verString '.').headD "") then
    parseJavaRuntimeVersion8 verString
  else .ok (parseJavaRuntimeVersion9 verString)

/-- The meta object accumulated by `_validateJVMProperties`. -/
structure JVMPropsMeta where
  arch : Option Int := none
  version : Option ParsedVersion := none
  vendor : Option String := none
  valid : Bool := false
deriving Repr, DecidableEq

/-- JS `line.split('=')[1]`: `none` means the subsequent `.trim()` call
throws on `undefined`. -/
def splitEqSecond (line : String) : Option String := (jsSplit line '=').get? 1

/-- The acceptance test on a parsed version
(`verOb.major === 8 && verOb.update > 52`; `NaN` comparisons are
false). -/
def versionOk (v : ParsedVersion) : Bool :=
  v.major == some 8 &&
    (match v.update with
     | some u => decide (52 < u)
     | none => false)

/-- The scanning loop of `_validateJVMProperties`: each line is
classified by substring containment (arch, else runtime version, else
vendor); a successful arch-64 or version check increments the checksum
and the loop breaks when it reaches the goal of 2; a relevant line
without `=`, or a runtime-version value whose legacy parse throws,
raises (`.error`), to be caught by the caller. -/
def jvmPropsGo : List String → Nat → JVMPropsMeta →
    Except Unit (Nat × JVMPropsMeta)
  | [], checksum, meta => .ok (checksum, meta)
  | line :: rest, checksum, meta =>
    if jsContains line "sun.arch.data.model" then
      match splitEqSecond line with
      | none => .error ()
      | some v =>
        if jsParseInt (jsTrim v) == some 64 then
          if checksum + 1 = 2 then .ok (checksum + 1, { meta with arch := some 64 })
          else jvmPropsGo rest (checksum + 1) { meta with arch := some 64 }
        else jvmPropsGo rest checksum meta
    else if jsContains line "java.runtime.version" then
      match splitEqSecond line with
      | none => .error ()
      | some v =>
        match parseJavaRuntimeVersion (jsTrim v) with
        | .error e => .error e
        | .ok verOb =>
          if versionOk verOb then
            if checksum + 1 = 2 then
              .ok (checksum + 1, { meta with version := some verOb })
            else jvmPropsGo rest (checksum + 1) { meta with version := some verOb }
          else jvmPropsGo rest checksum meta
    else if jsContains line "java.vendor " then
      match splitEqSecond line with
      | none => .error ()
      | some v => jvmPropsGo rest checksum { meta with vendor := some (jsTrim v) }
    else jvmPropsGo rest checksum meta

/-- `JavaGuard._validateJVMProperties(stderr)`: scan the lines and set
`valid` exactly when the checksum reached the goal of 2. An `.error`
models the JS exception that `_validateJavaBinary` catches. -/
def validateJVMProperties (stderr : String) : Except Unit JVMPropsMeta :=
  match jvmPropsGo (jsSplit stderr '\n') 0 {} with
  | .error e => .error e
  | .ok (checksum, meta) => .ok { meta with valid := decide (checksum = 2) }

/-- `JavaGuard._validateJavaBinary(binaryExecPath)`: reject a path that
fails the executable-suffix check or does not exist; otherwise run the
binary and parse its properties output (a spawn error surfaces as an
empty output, which scans to invalid), resolving `{valid: false}`
instead of propagating when the parse throws. -/
def validateJavaBinary (platform : String) (fsysExists : String → Bool)
    (binaryExecPath : String) (stderr : String) : JVMPropsMeta :=
  if !(isJavaExecPath platform binaryExecPath) then { valid := false }
  else if fsysExists binaryExecPath then
    match validateJVMProperties stderr with
    | .ok m => m
    | .error _ => { valid := false }
  else { valid := false }

/-- A line that the scanner classifies as an architecture line and that
passes the 64-bit test. -/
def archHit (line : String) : Bool :=
  jsContains line "sun.arch.data.model" &&
    (match splitEqSecond line with
     | none => false
     | some v => jsParseInt (jsTrim v) == some 64)

/-- A line that the scanner classifies as a runtime-version line and
whose parsed version passes the major-8/update-above-52 test. -/
def versionHit (line : String) : Bool :=
  !jsContains line "sun.arch.data.model" &&
    jsContains line "java.runtime.version" &&
    (match splitEqSecond line with
     | none => false
     | some v =>
       match parseJavaRuntimeVersion (jsTrim v) with
       | .ok verOb => versionOk verOb
       | .error _ => false)

/-- A line that increments the scanner's checksum. -/
def lineHit (line : String) : Bool := archHit line || versionHit line

/-- How many lines of an output increment the checksum (with
multiplicity). -/
def countHits (lines : List String) : Nat := (lines.filter lineHit).length

theorem countHits_cons (l : String) (rest : List String) :
    countHits (l :: rest) = (if lineHit l then 1 else 0) + countHits rest := by
  by_cases h : lineHit l = true <;>
    simp [countHits, List.filter_cons, h] <;> omega

/-- Counterexample to C8 as stated: an output consisting of two
`sun.arch.data.model = 64` lines reaches the checksum goal without any
version check succeeding, so binary validation accepts it (`valid`)
even though the `java.runtime.version` check never passed (no version
is recorded and no line passes the version test). -/
theorem c8_duplicate_arch_accepts_without_version :
    validateJVMProperties
      "sun.arch.data.model = 64\nsun.arch.data.model = 64" =
      .ok { arch := some 64, version := none, vendor := none,
            valid := true } ∧
    (validateJavaBinary "linux" (fun _ => true) "r/bin/java"
      "sun.arch.data.model = 64\nsun.arch.data.model = 64").valid = true ∧
    ((jsSplit "sun.arch.data.model = 64\nsun.arch.data.model = 64"
      '\n').filter versionHit).length = 0 := by
  refine ⟨rfl, rfl, by decide⟩

/-- The checksum a scan reaches (when it does not throw) is the number
of hit lines, capped by the break at the goal of 2. -/
theorem jvmPropsGo_checksum (lines : List String) :
    ∀ (checksum : Nat) (meta : JVMPropsMeta) (c : Nat) (m : JVMPropsMeta),
    checksum < 2 →
    jvmPropsGo lines checksum meta = .ok (c, m) →
    c = min 2 (checksum + countHits lines) := by
  induction lines with
  | nil =>
    intro checksum meta c m hlt h
    simp only [jvmPropsGo, Except.ok.injEq, Prod.mk.injEq] at h
    simp only [countHits, List.filter_nil, List.length_nil]
    omega
  | cons line rest ih =>
    intro checksum meta c m hlt h
    rw [countHits_cons]
    by_cases harch : jsContains line "sun.arch.data.model" = true
    · simp only [jvmPropsGo, harch, if_true] at h
      cases hsplit : splitEqSecond line with
      | none => rw [hsplit] at h; exact absurd h (by simp)
      | some v =>
        rw [hsplit] at h
        dsimp only at h
        by_cases hhit : (jsParseInt (jsTrim v) == some 64) = true
        · rw [if_pos hhit] at h
          have hl : lineHit line = true := by
            simp only [lineHit, archHit, harch, hsplit, hhit, Bool.true_and,
              Bool.true_or]
          simp only [hl, reduceIte, Bool.false_eq_true, if_false]
          by_cases hck : checksum + 1 = 2
          · rw [if_pos hck] at h
            simp only [Except.ok.injEq, Prod.mk.injEq] at h
            omega
          · rw [if_neg hck] at h
            have := ih (checksum + 1) _ c m (by omega) h
            omega
        · rw [if_neg hhit] at h
          have hl : lineHit line = false := by
            simp only [lineHit, archHit, versionHit, harch, hsplit,
              Bool.not_true, Bool.false_and, Bool.or_false, Bool.true_and]
            simpa using hhit
          simp only [hl, reduceIte, Bool.false_eq_true, if_false]
          have := ih checksum _ c m hlt h
          omega
    · have harch2 : jsContains line "sun.arch.data.model" = false := by
        simpa using harch
      simp only [jvmPropsGo, harch2, Bool.false_eq_true, if_false] at h
      by_cases hver : jsContains line "java.runtime.version" = true
      · rw [if_pos hver] at h
        cases hsplit : splitEqSecond line with
        | none => rw [hsplit] at h; exact absurd h (by simp)
        | some v =>
          rw [hsplit] at h
          dsimp only at h
          cases hparse : parseJavaRuntimeVersion (jsTrim v) with
          | error e => rw [hparse] at h; exact absurd h (by simp)
          | ok verOb =>
            rw [hparse] at h
            dsimp only at h
            by_cases hok : versionOk verOb = true
            · rw [if_pos hok] at h
              have hl : lineHit line = true := by
                simp only [lineHit, archHit, versionHit, harch2, hver,
                  hsplit, hparse, hok, Bool.not_false, Bool.true_and,
                  Bool.false_and, Bool.or_true, Bool.false_or]
              simp only [hl, reduceIte, Bool.false_eq_true, if_false]
              by_cases hck : checksum + 1 = 2
              · rw [if_pos hck] at h
                simp only [Except.ok.injEq, Prod.mk.injEq] at h
                omega
              · rw [if_neg hck] at h
                have := ih (checksum + 1) _ c m (by omega) h
                omega
            · rw [if_neg hok] at h
              have hl : lineHit line = false := by
                simp only [lineHit, archHit, versionHit, harch2, hver,
                  hsplit, hparse, Bool.not_false, Bool.true_and,
                  Bool.false_and, Bool.false_or]
                simpa using hok
              simp only [hl, reduceIte, Bool.false_eq_true, if_false]
              have := ih checksum _ c m hlt h
              omega
      · have hver2 : jsContains line "java.runtime.version" = false := by
          simpa using hver
        rw [hver2] at h
        simp only [Bool.false_eq_true, if_false] at h
        have hl : lineHit line = false := by
          simp only [lineHit, archHit, versionHit, harch2, hver2,
            Bool.false_and, Bool.not_false, Bool.true_and, Bool.or_self]
        simp only [hl, reduceIte, Bool.false_eq_true, if_false]
        by_cases hvend : jsContains line "java.vendor " = true
        · rw [if_pos hvend] at h
          cases hsplit : splitEqSecond line with
          | none => rw [hsplit] at h; exact absurd h (by simp)
          | some v =>
            rw [hsplit] at h
            dsimp only at h
            have := ih checksum _ c m hlt h
            omega
        · rw [if_neg hvend] at h
          have := ih checksum _ c m hlt h
          omega

/-- Hit lines split into arch hits and version hits (the two
classifications are mutually exclusive). -/
theorem countHits_eq_add (lines : List String) :
    countHits lines =
      (lines.filter archHit).length + (lines.filter versionHit).length := by
  induction lines with
  | nil => simp [countHits]
  | cons l rest ih =>
    by_cases ha : archHit l = true
    · have hv : versionHit l = false := by
        have hc : jsContains l "sun.arch.data.model" = true := by
          simp only [archHit, Bool.and_eq_true] at ha
          exact ha.1
        simp [versionHit, hc]
      rw [countHits_cons]
      simp [lineHit, ha, hv, List.filter_cons, ih]
      omega
    · have ha2 : archHit l = false := by simpa using ha
      by_cases hv : versionHit l = true
      · rw [countHits_cons]
        simp [lineHit, ha2, hv, List.filter_cons, ih]
        omega
      · have hv2 : versionHit l = false := by simpa using hv
        rw [countHits_cons]
        simp [lineHit, ha2, hv2, List.filter_cons, ih]

/-- The scan's verdict counts hit lines: a non-throwing properties scan
is valid exactly when at least two lines pass their checks. -/
theorem validateJVMProperties_valid_iff (stderr : String) (m : JVMPropsMeta)
    (h : validateJVMProperties stderr = .ok m) :
    (m.valid = true ↔ 2 ≤ countHits (jsSplit stderr '\n')) := by
  unfold validateJVMProperties at h
  cases hgo : jvmPropsGo (jsSplit stderr '\n') 0 {} with
  | error e =>
    rw [hgo] at h
    exact absurd h (by simp)
  | ok p =>
    obtain ⟨c, meta⟩ := p
    rw [hgo] at h
    dsimp only at h
    have hc := jvmPropsGo_checksum (jsSplit stderr '\n') 0 {} c meta
      (by omega) hgo
    simp only [Except.ok.injEq] at h
    subst h
    show decide (c = 2) = true ↔ _
    rw [decide_eq_true_eq]
    omega

/-- C8, amended. A non-throwing properties scan is accepted exactly when
at least two lines pass their checks, counted with multiplicity over the
arch-64 and version (major 8, update above 52) tests; in particular,
when each property line occurs at most once — the actual JVM output
format — acceptance is exactly one passing arch check and one passing
version check, and vendor lines never count. A scan that throws (a
relevant line without `=`, or a legacy version value whose parse
throws), a path failing the executable-suffix check, or a missing
binary, all resolve to an explicit `{valid: false}` rather than
propagating. (Duplicated passing lines of a single property can reach
the threshold alone — see the counterexample.) -/
theorem c8_jvm_validation_amended :
    (∀ stderr m, validateJVMProperties stderr = .ok m →
      (m.valid = true ↔ 2 ≤ countHits (jsSplit stderr '\n'))) ∧
    (∀ stderr m, validateJVMProperties stderr = .ok m →
      ((jsSplit stderr '\n').filter archHit).length ≤ 1 →
      ((jsSplit stderr '\n').filter versionHit).length ≤ 1 →
      (m.valid = true ↔
        ((jsSplit stderr '\n').filter archHit).length = 1 ∧
        ((jsSplit stderr '\n').filter versionHit).length = 1)) ∧
    (∀ platform fsysExists binaryExecPath stderr,
      validateJVMProperties stderr = .error () →
      validateJavaBinary platform fsysExists binaryExecPath stderr =
        { valid := false }) ∧
    (∀ platform fsysExists binaryExecPath stderr,
      isJavaExecPath platform binaryExecPath = false →
      validateJavaBinary platform fsysExists binaryExecPath stderr =
        { valid := false }) ∧
    (∀ platform fsysExists binaryExecPath stderr,
      fsysExists binaryExecPath = false →
      validateJavaBinary platform fsysExists binaryExecPath stderr =
        { valid := false }) := by
  refine ⟨validateJVMProperties_valid_iff, ?_, ?_, ?_, ?_⟩
  · intro stderr m h ha hv
    rw [validateJVMProperties_valid_iff stderr m h, countHits_eq_add]
    omega
  · intro platform fsysExists binaryExecPath stderr herr
    unfold validateJavaBinary
    by_cases hp : isJavaExecPath platform binaryExecPath = true
    · by_cases he : fsysExists binaryExecPath = true
      · simp [hp, he, herr]
      · simp [hp, he]
    · simp [hp]
  · intro platform fsysExists binaryExecPath stderr hpath
    simp [validateJavaBinary, hpath]
  · intro platform fsysExists binaryExecPath stderr hex
    unfold validateJavaBinary
    by_cases hp : isJavaExecPath platform binaryExecPath = true
    · simp [hp, hex]
    · simp [hp]

/-- Witness for the amended C8 at concrete inputs: a well-formed
properties output with one arch line and one version line is accepted
and counts exactly two hits; an arch line without `=` throws inside the
scan and binary validation resolves it to invalid; a non-executable path
and a missing binary are likewise invalid. -/
theorem c8_jvm_validation_amended_witness :
    (({ arch := some 64
        version := some { major := some 8
                          minor := none
                          revision := none
                          update := some 152
                          build := some 16 }
        vendor := none
        valid := true } : JVMPropsMeta).valid = true ↔
      2 ≤ countHits (jsSplit
        "sun.arch.data.model = 64\njava.runtime.version = 1.8.0_152-b16"
        '\n')) ∧
    validateJavaBinary "linux" (fun _ => true) "r/bin/java"
      "sun.arch.data.model" = { valid := false } ∧
    validateJavaBinary "linux" (fun _ => true) "r/somewhere.txt"
      "sun.arch.data.model = 64" = { valid := false } ∧
    validateJavaBinary "linux" (fun _ => false) "r/bin/java"
      "sun.arch.data.model = 64" = { valid := false } := by
  refine ⟨?_, ?_, ?_, ?_⟩
  · exact c8_jvm_validation_amended.1
      "sun.arch.data.model = 64\njava.runtime.version = 1.8.0_152-b16"
      { arch := some 64
        version := some { major := some 8
                          minor := none
                          revision := none
                          update := some 152
                          build := some 16 }
        vendor := none
        valid := true }
      (by rfl)
  · exact c8_jvm_validation_amended.2.2.1 "linux" (fun _ => true)
      "r/bin/java" "sun.arch.data.model" (by rfl)
  · exact c8_jvm_validation_amended.2.2.2.1 "linux" (fun _ => true)
      "r/somewhere.txt" "sun.arch.data.model = 64" (by decide)
  · exact c8_jvm_validation_amended.2.2.2.2 "linux" (fun _ => false)
      "r/bin/java" "sun.arch.data.model = 64" rfl

end Crystal
